import Mathlib

/-!
Verification of the signed-commit export pipeline (`commits.py`).

Python strings are modelled as `List Char`.  Each definition below is a
direct translation of the corresponding function of the source file:
`sanitize_field`, `parse_git_output`, `filter_signed`, `best_who_field`,
`write_csv`, and the driver `main`.
-/

namespace Commits

/-- `FIELD_SEP = "\x1f"` (unit separator) from the source. -/
def FIELD_SEP : Char := '\x1f'

/-- `RECORD_SEP = "\x1e"` (record separator) from the source. -/
def RECORD_SEP : Char := '\x1e'

/-- Python `s.replace(a, b)` for single-character `a` and `b`:
replaces every occurrence of `a` by `b`. -/
def pyReplaceChar (a b : Char) (s : List Char) : List Char :=
  s.map fun c => if c = a then b else c

/-- Python `str.isspace` on a single character: the Unicode whitespace
set used by `str.strip()` with no arguments. -/
def isPySpace (c : Char) : Bool :=
  c = ' ' || c = '\t' || c = '\n' || c = '\x0b' || c = '\x0c' || c = '\r' ||
  c = '\x1c' || c = '\x1d' || c = '\x1e' || c = '\x1f' ||
  c = '\x85' || c = '\xa0' || c = ' ' ||
  (' ' ≤ c && c ≤ ' ') ||
  c = ' ' || c = ' ' || c = ' ' || c = ' ' || c = '　'

/-- Python `s.strip()`: drop leading and trailing whitespace. -/
def pyStrip (s : List Char) : List Char :=
  ((s.dropWhile isPySpace).reverse.dropWhile isPySpace).reverse

/-- `sanitize_field` from the source:
`s.replace("\r", " ").replace("\n", " ").replace(FIELD_SEP, ",").replace(RECORD_SEP, "\n").strip()`.
(The `None` branch of the Python function never arises here because every
caller passes a string.) -/
def sanitize_field (s : List Char) : List Char :=
  pyStrip (pyReplaceChar RECORD_SEP '\n'
    (pyReplaceChar FIELD_SEP ','
      (pyReplaceChar '\n' ' '
        (pyReplaceChar '\r' ' ' s))))

/-- Python `s.split(sep)` for a single-character separator `sep`:
`"".split(sep) == [""]`, and a trailing separator yields a trailing
empty piece. -/
def splitChar (sep : Char) : List Char → List (List Char)
  | [] => [[]]
  | c :: cs =>
    if c = sep then [] :: splitChar sep cs
    else (c :: (splitChar sep cs).headD []) :: (splitChar sep cs).tail

/-- The parsed commit record: the dict built by `parse_git_output`,
with its eight keys as named fields. -/
structure CommitRecord where
  commit_hash : List Char
  author_name : List Char
  author_email : List Char
  date_iso : List Char
  sig_status : List Char
  signer_name : List Char
  key_id : List Char
  verification_text : List Char
deriving DecidableEq, Repr

/-- The eight field values of a record, in the positional order of the
git format string. -/
def recordFields (r : CommitRecord) : List (List Char) :=
  [r.commit_hash, r.author_name, r.author_email, r.date_iso,
   r.sig_status, r.signer_name, r.key_id, r.verification_text]

/-- `parts += [""] * (8 - len(parts))` when fewer than 8 parts, followed
by `parts[:8]` (the source pads only when `len(parts) < 8`; `Nat`
subtraction makes the same definition cover both branches). -/
def padFields (parts : List (List Char)) : List (List Char) :=
  (parts ++ List.replicate (8 - parts.length) []).take 8

/-- The body of the `parse_git_output` loop for one non-empty raw
record: split on `FIELD_SEP`, pad to eight positional fields, sanitize
each, and build the record. -/
def parseRecord (raw : List Char) : CommitRecord :=
  { commit_hash := sanitize_field ((padFields (splitChar FIELD_SEP raw)).getD 0 [])
    author_name := sanitize_field ((padFields (splitChar FIELD_SEP raw)).getD 1 [])
    author_email := sanitize_field ((padFields (splitChar FIELD_SEP raw)).getD 2 [])
    date_iso := sanitize_field ((padFields (splitChar FIELD_SEP raw)).getD 3 [])
    sig_status := sanitize_field ((padFields (splitChar FIELD_SEP raw)).getD 4 [])
    signer_name := sanitize_field ((padFields (splitChar FIELD_SEP raw)).getD 5 [])
    key_id := sanitize_field ((padFields (splitChar FIELD_SEP raw)).getD 6 [])
    verification_text := sanitize_field ((padFields (splitChar FIELD_SEP raw)).getD 7 []) }

/-- `parse_git_output` from the source: split the raw text on
`RECORD_SEP`, skip empty candidates, and parse each remaining candidate
in order. -/
def parse_git_output (text : List Char) : List CommitRecord :=
  ((splitChar RECORD_SEP text).filter (fun r => !r.isEmpty)).map parseRecord

/-- `filter_signed` from the source: keep records whose `sig_status` is
not the no-signature sentinel `"N"`. -/
def filter_signed (records : List CommitRecord) : List CommitRecord :=
  records.filter (fun r => r.sig_status != ['N'])

/-- `best_who_field` from the source: prefer `signer_name`, otherwise
`author_email`, otherwise `author_name` (Python truthiness of a string
is non-emptiness). -/
def best_who_field (rec : CommitRecord) : List Char :=
  if !rec.signer_name.isEmpty then rec.signer_name
  else if !rec.author_email.isEmpty then rec.author_email
  else rec.author_name

/-- The CSV header row written by `write_csv`. -/
def csvHeader : List (List Char) :=
  ["commit_hash".toList, "who".toList, "who_email".toList, "date_iso".toList,
   "sig_status".toList, "key_id".toList, "verification_text".toList]

/-- The data row `write_csv` writes for one record, as the list of its
seven column values. -/
def csvRow (r : CommitRecord) : List (List Char) :=
  [r.commit_hash, best_who_field r, r.author_email, r.date_iso,
   r.sig_status, r.key_id, r.verification_text]

/-- `write_csv` from the source, abstracted to the sequence of logical
rows it writes: the header row followed by one data row per record, in
order. -/
def write_csv (records : List CommitRecord) : List (List (List Char)) :=
  csvHeader :: records.map csvRow

/-- Joining a list of fields with a separator character — the inverse
of `splitChar`, used to build raw records with a given field count. -/
def joinSep (sep : Char) : List (List Char) → List Char
  | [] => []
  | [f] => f
  | f :: g :: rest => f ++ sep :: joinSep sep (g :: rest)

/-! ### Driver model

`main` interacts with the file system, a subprocess and the console; we
model that environment explicitly and keep the control flow of the
source. -/

/-- The environment `main` runs in: which paths exist, what the one
`git log` invocation would return (`error` models a non-zero exit of the
subprocess), and whether opening the output file for writing succeeds. -/
structure Env where
  pathExists : List Char → Bool
  gitOutput : Except (List Char) (List Char)
  writeOk : Bool

/-- `repo_path / ".git"` from the source's existence check. -/
def gitSubdir (repo : List Char) : List Char := repo ++ "/.git".toList

/-- The console line `f"'{repo_path}' is not a git-repository"`. -/
def errMsg (repo : List Char) : List Char :=
  '\'' :: repo ++ "' is not a git-repository".toList

/-- The observable outcome of one run of `main`: the process exit code,
whether the external history command was invoked, and the console
lines printed. -/
structure RunResult where
  exitCode : Nat
  gitInvoked : Bool
  console : List (List Char)
deriving DecidableEq, Repr

/-- `main` from the source, over the modelled environment: check that
the repository location exists (the source tests both `repo/.git` and
`repo`), then run reader → parser → filter → writer in sequence.  An
uncaught exception (failed `git log`, failed write) terminates the
process with a non-zero exit code. -/
def mainRun (env : Env) (repo : List Char) : RunResult :=
  if !env.pathExists (gitSubdir repo) && !env.pathExists repo then
    { exitCode := 1, gitInvoked := false, console := [errMsg repo] }
  else
    match env.gitOutput with
    | .error e =>
      { exitCode := 1, gitInvoked := true,
        console := ["1/4 run_git_log".toList, "git log error: ".toList ++ e] }
    | .ok out =>
      let recs := parse_git_output out
      let signed := filter_signed recs
      let lines := ["1/4 run_git_log".toList, "2/4 parse_git_output".toList,
        "3/4 filter_signed".toList,
        "Found ".toList ++ (Nat.repr signed.length).toList ++
          " commits with signature (out ".toList ++ (Nat.repr recs.length).toList ++ ").".toList,
        "4/4 write_csv".toList]
      if env.writeOk then
        { exitCode := 0, gitInvoked := true, console := lines }
      else
        { exitCode := 1, gitInvoked := true, console := lines }

/-! ### Basic lemmas about the string primitives -/

theorem pyReplaceChar_not_mem_self {a b : Char} (hab : a ≠ b) (s : List Char) :
    a ∉ pyReplaceChar a b s := by
  intro h
  rcases List.mem_map.mp h with ⟨c, _, hc⟩
  by_cases hca : c = a
  · rw [if_pos hca] at hc
    exact hab hc.symm
  · rw [if_neg hca] at hc
    exact hca hc

theorem pyReplaceChar_not_mem {a b c : Char} {s : List Char}
    (hcs : c ∉ s) (hcb : c ≠ b) : c ∉ pyReplaceChar a b s := by
  intro h
  rcases List.mem_map.mp h with ⟨d, hd, hdc⟩
  by_cases hda : d = a
  · rw [if_pos hda] at hdc
    exact hcb hdc.symm
  · rw [if_neg hda] at hdc
    exact hcs (hdc ▸ hd)

theorem pyReplaceChar_of_not_mem {a : Char} (b : Char) {s : List Char}
    (h : a ∉ s) : pyReplaceChar a b s = s := by
  unfold pyReplaceChar
  have hcongr : ∀ c ∈ s, (if c = a then b else c) = id c := by
    intro c hc
    have hca : c ≠ a := fun hca => h (hca ▸ hc)
    rw [if_neg hca]
    rfl
  rw [List.map_congr_left hcongr, List.map_id]

theorem pyStrip_subset {s : List Char} : pyStrip s ⊆ s := by
  unfold pyStrip
  intro c hc
  rw [List.mem_reverse] at hc
  have h1 := (List.dropWhile_sublist (l := (s.dropWhile isPySpace).reverse)
    (p := isPySpace)).subset hc
  rw [List.mem_reverse] at h1
  exact (List.dropWhile_sublist (l := s) (p := isPySpace)).subset h1

/-! ### Lemmas about `splitChar` -/

theorem splitChar_ne_nil (sep : Char) (s : List Char) : splitChar sep s ≠ [] := by
  cases s with
  | nil => simp [splitChar]
  | cons c cs =>
    unfold splitChar
    by_cases hc : c = sep
    · simp [hc]
    · simp [hc]

theorem sep_not_mem_of_mem_splitChar {sep : Char} {s p : List Char}
    (hp : p ∈ splitChar sep s) : sep ∉ p := by
  induction s generalizing p with
  | nil =>
    simp [splitChar] at hp
    simp [hp]
  | cons c cs ih =>
    rcases hr : splitChar sep cs with _ | ⟨q, qs⟩
    · exact absurd hr (splitChar_ne_nil sep cs)
    · unfold splitChar at hp
      by_cases hc : c = sep
      · rw [if_pos hc, hr] at hp
        rcases List.mem_cons.mp hp with h | h
        · simp [h]
        · exact ih (hr ▸ h)
      · rw [if_neg hc, hr] at hp
        simp only [List.headD_cons, List.tail_cons] at hp
        rcases List.mem_cons.mp hp with h | h
        · subst h
          intro hmem
          rcases List.mem_cons.mp hmem with h' | h'
          · exact hc h'.symm
          · exact ih (hr ▸ List.mem_cons_self q qs) h'
        · exact ih (hr ▸ List.mem_cons_of_mem q h)

theorem mem_of_mem_splitChar {sep c : Char} {s p : List Char}
    (hp : p ∈ splitChar sep s) (hc : c ∈ p) : c ∈ s := by
  induction s generalizing p with
  | nil =>
    simp [splitChar] at hp
    subst hp
    simp at hc
  | cons a cs ih =>
    rcases hr : splitChar sep cs with _ | ⟨q, qs⟩
    · exact absurd hr (splitChar_ne_nil sep cs)
    · unfold splitChar at hp
      by_cases ha : a = sep
      · rw [if_pos ha, hr] at hp
        rcases List.mem_cons.mp hp with h | h
        · subst h
          simp at hc
        · exact List.mem_cons_of_mem a (ih (hr ▸ h) hc)
      · rw [if_neg ha, hr] at hp
        simp only [List.headD_cons, List.tail_cons] at hp
        rcases List.mem_cons.mp hp with h | h
        · subst h
          rcases List.mem_cons.mp hc with h' | h'
          · exact h' ▸ List.mem_cons_self a cs
          · exact List.mem_cons_of_mem a (ih (hr ▸ List.mem_cons_self q qs) h')
        · exact List.mem_cons_of_mem a (ih (hr ▸ List.mem_cons_of_mem q h) hc)

theorem splitChar_of_not_mem {sep : Char} {s : List Char} (h : sep ∉ s) :
    splitChar sep s = [s] := by
  induction s with
  | nil => rfl
  | cons c cs ih =>
    have hc : c ≠ sep := fun hc => h (hc ▸ List.mem_cons_self c cs)
    have hcs : sep ∉ cs := fun hm => h (List.mem_cons_of_mem c hm)
    unfold splitChar
    rw [if_neg hc, ih hcs]
    rfl

theorem splitChar_append_sep {sep : Char} {a : List Char} (t : List Char)
    (h : sep ∉ a) : splitChar sep (a ++ sep :: t) = a :: splitChar sep t := by
  induction a with
  | nil =>
    simp [splitChar]
  | cons c cs ih =>
    have hc : c ≠ sep := fun hc => h (hc ▸ List.mem_cons_self c cs)
    have hcs : sep ∉ cs := fun hm => h (List.mem_cons_of_mem c hm)
    simp only [List.cons_append, splitChar, List.append_eq]
    rw [if_neg hc, ih hcs]
    simp

theorem splitChar_joinSep {sep : Char} {fields : List (List Char)}
    (hne : fields ≠ []) (hsep : ∀ f ∈ fields, sep ∉ f) :
    splitChar sep (joinSep sep fields) = fields := by
  induction fields with
  | nil => exact absurd rfl hne
  | cons f rest ih =>
    rcases rest with _ | ⟨g, rest'⟩
    · show splitChar sep (joinSep sep [f]) = [f]
      exact splitChar_of_not_mem (hsep f (List.mem_cons_self f []))
    · show splitChar sep (f ++ sep :: joinSep sep (g :: rest')) = f :: g :: rest'
      rw [splitChar_append_sep _ (hsep f (List.mem_cons_self f (g :: rest')))]
      rw [ih (by simp) (fun x hx => hsep x (List.mem_cons_of_mem f hx))]

/-! ### Cleanliness of `sanitize_field` -/

theorem sanitize_field_clean {s : List Char} (hrs : RECORD_SEP ∉ s) :
    FIELD_SEP ∉ sanitize_field s ∧ RECORD_SEP ∉ sanitize_field s ∧
    '\n' ∉ sanitize_field s ∧ '\r' ∉ sanitize_field s := by
  unfold sanitize_field
  set s1 := pyReplaceChar '\r' ' ' s with hs1
  set s2 := pyReplaceChar '\n' ' ' s1 with hs2
  set s3 := pyReplaceChar FIELD_SEP ',' s2 with hs3
  have hrs1 : RECORD_SEP ∉ s1 := pyReplaceChar_not_mem hrs (by decide)
  have hrs2 : RECORD_SEP ∉ s2 := pyReplaceChar_not_mem hrs1 (by decide)
  have hrs3 : RECORD_SEP ∉ s3 := pyReplaceChar_not_mem hrs2 (by decide)
  have hs4 : pyReplaceChar RECORD_SEP '\n' s3 = s3 := pyReplaceChar_of_not_mem '\n' hrs3
  rw [hs4]
  have hcr1 : '\r' ∉ s1 := pyReplaceChar_not_mem_self (by decide) s
  have hcr2 : '\r' ∉ s2 := pyReplaceChar_not_mem hcr1 (by decide)
  have hcr3 : '\r' ∉ s3 := pyReplaceChar_not_mem hcr2 (by decide)
  have hnl2 : '\n' ∉ s2 := pyReplaceChar_not_mem_self (by decide) s1
  have hnl3 : '\n' ∉ s3 := pyReplaceChar_not_mem hnl2 (by decide)
  have hfs3 : FIELD_SEP ∉ s3 := pyReplaceChar_not_mem_self (by decide) s2
  exact ⟨fun h => hfs3 (pyStrip_subset h), fun h => hrs3 (pyStrip_subset h),
    fun h => hnl3 (pyStrip_subset h), fun h => hcr3 (pyStrip_subset h)⟩

/-! ### Helper lemmas about padded field lists -/

theorem getD_mem_or_default {α : Type} (l : List α) (i : Nat) (d : α) :
    l.getD i d ∈ l ∨ l.getD i d = d := by
  induction l generalizing i with
  | nil => right; rfl
  | cons x xs ih =>
    cases i with
    | zero => left; exact List.mem_cons_self x xs
    | succ n =>
      rw [List.getD_cons_succ]
      rcases ih n with h | h
      · left; exact List.mem_cons_of_mem x h
      · right; exact h

theorem mem_padFields {parts : List (List Char)} {x : List Char}
    (hx : x ∈ padFields parts) : x ∈ parts ∨ x = [] := by
  unfold padFields at hx
  have hx' := List.take_subset 8 _ hx
  rcases List.mem_append.mp hx' with h | h
  · left; exact h
  · right; exact List.eq_of_mem_replicate h

/-- The eight fields of a parsed record, unfolded. -/
theorem recordFields_parseRecord (raw : List Char) :
    recordFields (parseRecord raw) =
      [sanitize_field ((padFields (splitChar FIELD_SEP raw)).getD 0 []),
       sanitize_field ((padFields (splitChar FIELD_SEP raw)).getD 1 []),
       sanitize_field ((padFields (splitChar FIELD_SEP raw)).getD 2 []),
       sanitize_field ((padFields (splitChar FIELD_SEP raw)).getD 3 []),
       sanitize_field ((padFields (splitChar FIELD_SEP raw)).getD 4 []),
       sanitize_field ((padFields (splitChar FIELD_SEP raw)).getD 5 []),
       sanitize_field ((padFields (splitChar FIELD_SEP raw)).getD 6 []),
       sanitize_field ((padFields (splitChar FIELD_SEP raw)).getD 7 [])] := rfl

/-- Every field of a record parsed from a `RECORD_SEP`-free raw record
is free of separators, newlines and carriage returns. -/
theorem parseRecord_clean {raw : List Char} (hrs : RECORD_SEP ∉ raw)
    {f : List Char} (hf : f ∈ recordFields (parseRecord raw)) :
    FIELD_SEP ∉ f ∧ RECORD_SEP ∉ f ∧ '\n' ∉ f ∧ '\r' ∉ f := by
  have key : ∀ i : Nat, RECORD_SEP ∉ (padFields (splitChar FIELD_SEP raw)).getD i [] := by
    intro i
    rcases getD_mem_or_default (padFields (splitChar FIELD_SEP raw)) i [] with h | h
    · rcases mem_padFields h with h' | h'
      · intro hmem
        exact hrs (mem_of_mem_splitChar h' hmem)
      · rw [h']
        simp
    · rw [h]
      simp
  rw [recordFields_parseRecord] at hf
  simp only [List.mem_cons, List.not_mem_nil, or_false] at hf
  rcases hf with rfl | rfl | rfl | rfl | rfl | rfl | rfl | rfl
  all_goals exact sanitize_field_clean (key _)

/-! ### Claim theorems -/

/-- C1: a record appears in the output of `filter_signed` iff its
`sig_status` is not the no-signature sentinel `"N"`; the relative order
of kept records is preserved (the output is a sublist of the input),
and the output has at most as many records as the input. -/
theorem filter_signed_spec (records : List CommitRecord) :
    (∀ r : CommitRecord, r ∈ filter_signed records ↔
      (r ∈ records ∧ r.sig_status ≠ ['N'])) ∧
    List.Sublist (filter_signed records) records ∧
    (filter_signed records).length ≤ records.length := by
  refine ⟨fun r => ?_, List.filter_sublist _, List.length_filter_le _ _⟩
  rw [filter_signed, List.mem_filter]
  simp

/-- C2: every field of every record emitted by `parse_git_output`
contains no field separator, no record separator, no newline and no
carriage return. -/
theorem parse_git_output_fields_clean (text : List Char) (r : CommitRecord)
    (f : List Char) (hr : r ∈ parse_git_output text) (hf : f ∈ recordFields r) :
    FIELD_SEP ∉ f ∧ RECORD_SEP ∉ f ∧ '\n' ∉ f ∧ '\r' ∉ f := by
  unfold parse_git_output at hr
  rcases List.mem_map.mp hr with ⟨raw, hraw, rfl⟩
  have hmem : raw ∈ splitChar RECORD_SEP text := (List.mem_filter.mp hraw).1
  exact parseRecord_clean (sep_not_mem_of_mem_splitChar hmem) hf

/-- Witness for C2 at the one-record input `"a"`. -/
theorem parse_git_output_fields_clean_witness :
    FIELD_SEP ∉ (parseRecord ("a".toList)).commit_hash ∧
    RECORD_SEP ∉ (parseRecord ("a".toList)).commit_hash ∧
    '\n' ∉ (parseRecord ("a".toList)).commit_hash ∧
    '\r' ∉ (parseRecord ("a".toList)).commit_hash :=
  parse_git_output_fields_clean ("a".toList) (parseRecord ("a".toList))
    ((parseRecord ("a".toList)).commit_hash) (by decide) (by decide)

/-- C3: in every data row written to the CSV, the `who` column (index 1)
is `signer_name` when non-empty, else `author_email` when non-empty,
else `author_name`. -/
theorem write_csv_who_priority (records : List CommitRecord) (i : Nat)
    (h : i < records.length) :
    ((write_csv records).getD (i + 1) []).getD 1 [] =
      (if (records.get ⟨i, h⟩).signer_name ≠ [] then (records.get ⟨i, h⟩).signer_name
       else if (records.get ⟨i, h⟩).author_email ≠ [] then (records.get ⟨i, h⟩).author_email
       else (records.get ⟨i, h⟩).author_name) := by
  have hrow : (write_csv records).getD (i + 1) [] = csvRow (records.get ⟨i, h⟩) := by
    rw [write_csv, List.getD_cons_succ, List.getD_eq_getElem?_getD,
      List.getElem?_map]
    rw [List.getElem?_eq_getElem h]
    rfl
  rw [hrow, csvRow, List.getD_cons_succ, List.getD_cons_zero, best_who_field]
  by_cases h1 : (records.get ⟨i, h⟩).signer_name = [] <;>
    by_cases h2 : (records.get ⟨i, h⟩).author_email = [] <;>
      simp [h1, h2]

/-- Witness for C3: a one-record list whose `signer_name` is non-empty;
the `who` column of the single data row equals that `signer_name`. -/
theorem write_csv_who_priority_witness :
    ((write_csv [CommitRecord.mk ['h'] ['n'] ['e'] [] ['G'] ['s'] [] []]).getD 1
      []).getD 1 [] = ['s'] := by
  have h := write_csv_who_priority [CommitRecord.mk ['h'] ['n'] ['e'] [] ['G'] ['s'] [] []]
    0 (by decide)
  simpa using h

/-- C4: a raw record with fewer than eight fields still parses (the
whole text consisting of that one record yields exactly one record),
and every positional field beyond the ones present is the empty
string. -/
theorem parse_git_output_truncated (raw : List Char)
    (h8 : (splitChar FIELD_SEP raw).length < 8) (hrs : RECORD_SEP ∉ raw)
    (hne : raw ≠ []) :
    parse_git_output raw = [parseRecord raw] ∧
    ∀ i : Nat, (splitChar FIELD_SEP raw).length ≤ i → i < 8 →
      (recordFields (parseRecord raw)).getD i [] = [] := by
  constructor
  · unfold parse_git_output
    rw [splitChar_of_not_mem hrs]
    simp [List.filter_cons, hne]
  · intro i hlo hhi
    have hpad : padFields (splitChar FIELD_SEP raw) =
        splitChar FIELD_SEP raw ++
          List.replicate (8 - (splitChar FIELD_SEP raw).length) [] := by
      unfold padFields
      apply List.take_of_length_le
      simp
      omega
    have hnil : (padFields (splitChar FIELD_SEP raw)).getD i [] = [] := by
      rw [hpad, List.getD_eq_getElem?_getD, List.getElem?_append_right hlo,
        List.getElem?_replicate_of_lt (by omega)]
      rfl
    have hfield : (recordFields (parseRecord raw)).getD i [] =
        sanitize_field ((padFields (splitChar FIELD_SEP raw)).getD i []) := by
      rw [recordFields_parseRecord]
      interval_cases i <;> rfl
    rw [hfield, hnil]
    rfl

/-- Witness for C4: a raw record with exactly three fields parses into
one record whose later positional fields are empty (field 5 shown). -/
theorem parse_git_output_truncated_witness :
    parse_git_output ("a\x1fb\x1fc".toList) = [parseRecord ("a\x1fb\x1fc".toList)] ∧
    (recordFields (parseRecord ("a\x1fb\x1fc".toList))).getD 5 [] = [] :=
  ⟨(parse_git_output_truncated ("a\x1fb\x1fc".toList) (by decide) (by decide) (by decide)).1,
   (parse_git_output_truncated ("a\x1fb\x1fc".toList) (by decide) (by decide) (by decide)).2
     5 (by decide) (by decide)⟩

/-- C5: end-to-end order preservation.  The written output is the header
followed by one row per kept record in sequence order; the kept records
form a sublist (hence in unchanged relative order) of the parsed
records; and the parsed records are, in order, the parse of the
non-empty record-separator-delimited candidates of the raw text. -/
theorem pipeline_order (text : List Char) :
    write_csv (filter_signed (parse_git_output text)) =
      csvHeader :: (filter_signed (parse_git_output text)).map csvRow ∧
    List.Sublist (filter_signed (parse_git_output text)) (parse_git_output text) ∧
    parse_git_output text =
      ((splitChar RECORD_SEP text).filter (fun r => !r.isEmpty)).map parseRecord :=
  ⟨rfl, List.filter_sublist _, rfl⟩

/-- C6 counterexample: the claim as stated does not exclude carriage
returns, but `sanitize_field` replaces an interior carriage return by a
space while trimming does not. -/
theorem sanitize_field_identity_cex :
    FIELD_SEP ∉ ("a\rb".toList) ∧ RECORD_SEP ∉ ("a\rb".toList) ∧
    '\n' ∉ ("a\rb".toList) ∧
    sanitize_field ("a\rb".toList) ≠ pyStrip ("a\rb".toList) := by decide

/-- C6 (amended): for a string with no field separator, no record
separator, no newline and no carriage return, `sanitize_field` is
exactly trimming of leading and trailing whitespace. -/
theorem sanitize_field_identity (s : List Char) (h1 : FIELD_SEP ∉ s)
    (h2 : RECORD_SEP ∉ s) (h3 : '\n' ∉ s) (h4 : '\r' ∉ s) :
    sanitize_field s = pyStrip s := by
  unfold sanitize_field
  rw [pyReplaceChar_of_not_mem ' ' h4, pyReplaceChar_of_not_mem ' ' h3,
    pyReplaceChar_of_not_mem ',' h1, pyReplaceChar_of_not_mem '\n' h2]

/-- Witness for the amended C6. -/
theorem sanitize_field_identity_witness :
    sanitize_field ("  ab ".toList) = pyStrip ("  ab ".toList) :=
  sanitize_field_identity ("  ab ".toList) (by decide) (by decide) (by decide)
    (by decide)

/-- C7: for every input string, the output of `sanitize_field` contains
no field-separator character and no record-separator character. -/
theorem sanitize_field_no_separators (s : List Char) :
    FIELD_SEP ∉ sanitize_field s ∧ RECORD_SEP ∉ sanitize_field s := by
  unfold sanitize_field
  set s2 := pyReplaceChar '\n' ' ' (pyReplaceChar '\r' ' ' s) with hs2
  have hfs3 : FIELD_SEP ∉ pyReplaceChar FIELD_SEP ',' s2 :=
    pyReplaceChar_not_mem_self (by decide) s2
  have hfs4 : FIELD_SEP ∉ pyReplaceChar RECORD_SEP '\n' (pyReplaceChar FIELD_SEP ',' s2) :=
    pyReplaceChar_not_mem hfs3 (by decide)
  have hrs4 : RECORD_SEP ∉ pyReplaceChar RECORD_SEP '\n' (pyReplaceChar FIELD_SEP ',' s2) :=
    pyReplaceChar_not_mem_self (by decide) _
  exact ⟨fun h => hfs4 (pyStrip_subset h), fun h => hrs4 (pyStrip_subset h)⟩

/-- C8: raw text that is empty or consists only of record-separator
characters parses to zero records, and the written output for the
resulting (empty) filtered sequence is just the header row. -/
theorem parse_git_output_empty (text : List Char)
    (h : ∀ c ∈ text, c = RECORD_SEP) :
    parse_git_output text = [] ∧
    write_csv (filter_signed (parse_git_output text)) = [csvHeader] := by
  have hempty : ∀ p ∈ splitChar RECORD_SEP text, p = [] := by
    intro p hp
    rcases hc : p with _ | ⟨c, cs⟩
    · rfl
    · exfalso
      have hmem : c ∈ text := mem_of_mem_splitChar hp (hc ▸ List.mem_cons_self c cs)
      have hcrs : c = RECORD_SEP := h c hmem
      exact sep_not_mem_of_mem_splitChar hp (hc ▸ hcrs ▸ List.mem_cons_self c cs)
  have hparse : parse_git_output text = [] := by
    unfold parse_git_output
    have hfil : (splitChar RECORD_SEP text).filter (fun r => !r.isEmpty) = [] := by
      rw [List.filter_eq_nil_iff]
      intro p hp
      rw [hempty p hp]
      decide
    rw [hfil]
    rfl
  exact ⟨hparse, by rw [hparse]; rfl⟩

/-- Witness for C8 at the input consisting of one record separator. -/
theorem parse_git_output_empty_witness :
    parse_git_output ("\x1e".toList) = [] ∧
    write_csv (filter_signed (parse_git_output ("\x1e".toList))) = [csvHeader] :=
  parse_git_output_empty ("\x1e".toList) (by decide)

/-- C9: when the repository path does not exist (so neither does its
`.git` subdirectory), the driver prints the error line and exits with
status 1 without invoking the external history command; when the path
exists, the history command succeeds and the write succeeds, the driver
exits with status 0. -/
theorem mainRun_exit_codes (env : Env) (repo : List Char)
    (hfs : env.pathExists (gitSubdir repo) = true → env.pathExists repo = true) :
    (env.pathExists repo = false →
      mainRun env repo = RunResult.mk 1 false [errMsg repo]) ∧
    (env.pathExists repo = true → env.writeOk = true →
      (∃ out, env.gitOutput = Except.ok out) → (mainRun env repo).exitCode = 0) := by
  constructor
  · intro hmiss
    have hgit : env.pathExists (gitSubdir repo) = false := by
      rcases hh : env.pathExists (gitSubdir repo) with _ | _
      · rfl
      · rw [hfs hh] at hmiss
        exact absurd hmiss (by decide)
    unfold mainRun
    rw [hmiss, hgit]
    rfl
  · intro hex hw hgit
    rcases hgit with ⟨out, hout⟩
    unfold mainRun
    rw [hex, hout]
    simp [hw]

/-- Witness for C9: a missing path gives exit code 1 with no git
invocation; an existing path with successful stages gives exit code 0. -/
theorem mainRun_exit_codes_witness :
    mainRun (Env.mk (fun _ => false) (Except.ok []) true) [] =
      RunResult.mk 1 false [errMsg []] ∧
    (mainRun (Env.mk (fun _ => true) (Except.ok []) true) []).exitCode = 0 :=
  ⟨(mainRun_exit_codes (Env.mk (fun _ => false) (Except.ok []) true) []
      (fun h => h)).1 rfl,
   (mainRun_exit_codes (Env.mk (fun _ => true) (Except.ok []) true) []
      (fun h => h)).2 rfl rfl ⟨[], rfl⟩⟩

/-- C10: a raw record with more than eight fields parses to the same
record as its first eight fields alone — the excess fields are silently
discarded, and `verification_text` is exactly the sanitized eighth
field, without the extra content. -/
theorem parseRecord_extra_fields (fields : List (List Char))
    (hlen : 8 < fields.length) (hsep : ∀ f ∈ fields, FIELD_SEP ∉ f) :
    parseRecord (joinSep FIELD_SEP fields) =
      parseRecord (joinSep FIELD_SEP (fields.take 8)) ∧
    (parseRecord (joinSep FIELD_SEP fields)).verification_text =
      sanitize_field (fields.getD 7 []) := by
  have hne : fields ≠ [] := by
    intro hnil
    rw [hnil] at hlen
    exact absurd hlen (by decide)
  have e1 : splitChar FIELD_SEP (joinSep FIELD_SEP fields) = fields :=
    splitChar_joinSep hne hsep
  have hlen8 : (fields.take 8).length = 8 := by
    rw [List.length_take]
    omega
  have hne8 : fields.take 8 ≠ [] := by
    intro hnil
    rw [hnil] at hlen8
    exact absurd hlen8 (by decide)
  have hsep8 : ∀ f ∈ fields.take 8, FIELD_SEP ∉ f :=
    fun f hf => hsep f (List.take_subset 8 fields hf)
  have e2 : splitChar FIELD_SEP (joinSep FIELD_SEP (fields.take 8)) = fields.take 8 :=
    splitChar_joinSep hne8 hsep8
  have hpad1 : padFields fields = fields.take 8 := by
    unfold padFields
    have hz : 8 - fields.length = 0 := by omega
    rw [hz]
    simp
  have hpad2 : padFields (fields.take 8) = fields.take 8 := by
    unfold padFields
    rw [hlen8]
    simp only [Nat.sub_self, List.replicate_zero, List.append_nil]
    exact List.take_of_length_le (le_of_eq hlen8)
  have hget7 : (fields.take 8).getD 7 [] = fields.getD 7 [] := by
    rw [List.getD_eq_getElem?_getD, List.getD_eq_getElem?_getD,
      List.getElem?_take_of_lt (by omega)]
  constructor
  · unfold parseRecord
    rw [e1, e2, hpad1, hpad2]
  · show sanitize_field
      ((padFields (splitChar FIELD_SEP (joinSep FIELD_SEP fields))).getD 7 []) =
      sanitize_field (fields.getD 7 [])
    rw [e1, hpad1, hget7]

/-- Witness for C10: nine single-character fields; the parse equals the
parse of the first eight, and `verification_text` is the eighth. -/
theorem parseRecord_extra_fields_witness :
    parseRecord (joinSep FIELD_SEP
        [['a'], ['b'], ['c'], ['d'], ['e'], ['f'], ['g'], ['h'], ['i']]) =
      parseRecord (joinSep FIELD_SEP
        ([['a'], ['b'], ['c'], ['d'], ['e'], ['f'], ['g'], ['h'], ['i']].take 8)) ∧
    (parseRecord (joinSep FIELD_SEP
        [['a'], ['b'], ['c'], ['d'], ['e'], ['f'], ['g'], ['h'], ['i']])).verification_text =
      sanitize_field
        ([['a'], ['b'], ['c'], ['d'], ['e'], ['f'], ['g'], ['h'], ['i']].getD 7 []) :=
  parseRecord_extra_fields
    [['a'], ['b'], ['c'], ['d'], ['e'], ['f'], ['g'], ['h'], ['i']]
    (by decide) (by decide)

end Commits
